import Mathlib

/-!
Shallow embedding of the edge-rs web framework core (buffer, router,
framing validation, response emission, streaming response handle), with
theorems settling the specification claims about it.

Bytes are modelled as `Nat`, byte vectors as `List Nat`; Rust `usize`
arithmetic in the modelled code paths stays far below overflow, so `Nat`
is used directly.
-/

namespace EdgeRs

/-! ## I/O error model (std::io::Error as used by buffer.rs / request.rs) -/

inductive ErrKind where
  | unexpectedEof
  | wouldBlock
  | writeZero
  | invalidInput
  | other
deriving DecidableEq, Repr

structure IoError where
  kind : ErrKind
  msg : String
deriving DecidableEq, Repr

/-! ## Buffer (src/buffer.rs)

`Buffer` has byte `content`, a position `pos`, and a `growable` flag.
The reader passed to `read_from` is modelled as a queue of events: a
`data` event holds bytes the underlying stream has available (a single
`read` call delivers at most the free space of the slice it is given,
the surplus stays in the stream), and a `fail` event makes `read` return
the given error.  An exhausted queue makes `read` return 0 bytes, which
`read_from` interprets as end-of-stream. -/

structure Buffer where
  content : List Nat
  pos : Nat
  growable : Bool
deriving DecidableEq, Repr

def DEFAULT_BUF_SIZE : Nat := 4 * 1024

/-- `Buffer::new()`: empty growable buffer. -/
def Buffer.new : Buffer := ⟨[], 0, true⟩

/-- `Buffer::new_fixed(capacity)`: zero-filled buffer of exactly `capacity` bytes. -/
def Buffer.newFixed (capacity : Nat) : Buffer :=
  ⟨List.replicate capacity 0, 0, false⟩

def Buffer.len (b : Buffer) : Nat := b.content.length

/-- The new length chosen by `read_from` when a growable buffer is full
(buffer.rs lines 56-62): start at `DEFAULT_BUF_SIZE`, double afterwards. -/
def growLen (len : Nat) : Nat :=
  if len < DEFAULT_BUF_SIZE then DEFAULT_BUF_SIZE else len * 2

/-- `Vec::resize(new_len, 0)`: truncate or extend with zeros. -/
def resize (content : List Nat) (newLen : Nat) : List Nat :=
  if newLen ≤ content.length then content.take newLen
  else content ++ List.replicate (newLen - content.length) 0

/-- Overwrite `content` starting at `pos` with `bytes`
(the effect of `reader.read(&mut self.content[self.pos..])` writing `bytes`). -/
def writeAt (content : List Nat) (pos : Nat) (bytes : List Nat) : List Nat :=
  content.take pos ++ bytes ++ content.drop (pos + bytes.length)

/-- One event of the modelled reader. -/
inductive ReadEv where
  | data (bytes : List Nat)
  | fail (e : IoError)
deriving DecidableEq, Repr

/-- Total number of data bytes the reader can still deliver. -/
def evWeight : List ReadEv → Nat
  | [] => 0
  | .data c :: rest => c.length + evWeight rest
  | .fail _ :: rest => evWeight rest

/-- Concatenation of all data bytes of the reader. -/
def flattenData : List ReadEv → List Nat
  | [] => []
  | .data c :: rest => c ++ flattenData rest
  | .fail _ :: rest => flattenData rest

/-- The reader queue after a `data` chunk `c` was read with `space` free
bytes: the undelivered surplus of the chunk stays at the front. -/
def pushback (c : List Nat) (space : Nat) (rest : List ReadEv) : List ReadEv :=
  if (c.drop space).isEmpty then rest else .data (c.drop space) :: rest

/-- The message of the incomplete-message error (buffer.rs line 86). -/
def incompleteMsg (expected got : Nat) : String :=
  "Incomplete message: expected " ++ toString expected ++ " bytes, got " ++ toString got

/-- A reader event that delivers at least one byte (the hypothesis of the
buffer claims: data chunks of positive size, end-of-stream at exhaustion). -/
def isDataNonempty : ReadEv → Bool
  | .data c => ¬ c.isEmpty
  | .fail _ => false

/-- The `Ok(0)` (end-of-stream) branch of `read_from` (buffer.rs lines 70-93):
growable buffers truncate to `pos` and succeed, fixed buffers fail with
`UnexpectedEof` unless exactly full. -/
def eofResult (growable : Bool) (content : List Nat) (pos : Nat)
    (rest : List ReadEv) : Except IoError (Bool × List Nat × Nat × List ReadEv) :=
  if growable then
    .ok (false, content.take pos, pos, rest)
  else if pos ≠ content.length then
    .error ⟨.unexpectedEof, incompleteMsg content.length pos⟩
  else
    .ok (false, content, pos, rest)

/-- The loop of `Buffer::read_from` (buffer.rs lines 52-116).
Returns `(keepReading, content, pos, remaining reader events)` on success,
mirroring `Ok(bool)` plus the mutated buffer, or the propagated I/O error. -/
def readFromLoop (growable : Bool) (content : List Nat) (pos : Nat) :
    List ReadEv → Except IoError (Bool × List Nat × Nat × List ReadEv) :=
  fun events =>
  -- loop top: if growable and full, grow before reading (lines 54-67)
  let content := if growable && pos == content.length
    then resize content (growLen content.length) else content
  match events with
  | [] => eofResult growable content pos []
  | .fail e :: rest =>
      -- Err(e): WouldBlock yields Ok(true), anything else propagates (lines 102-113)
      if e.kind = ErrKind.wouldBlock then .ok (true, content, pos, rest) else .error e
  | .data c :: rest =>
      let space := content.length - pos
      let delivered := c.take space
      if h : delivered = [] then
        -- the reader returned Ok(0): end-of-stream handling (lines 70-93)
        eofResult growable content pos (pushback c space rest)
      else
        -- Ok(n) with n > 0 (lines 94-101)
        let content' := writeAt content pos delivered
        let pos' := pos + delivered.length
        if growable = false ∧ pos' = content'.length then
          .ok (false, content', pos', pushback c space rest)
        else
          readFromLoop growable content' pos' (pushback c space rest)
termination_by events => evWeight events
decreasing_by
  have key : ∀ (c : List Nat) (sp : Nat) (rest : List ReadEv), c.take sp ≠ [] →
      evWeight (pushback c sp rest) < evWeight (.data c :: rest) := by
    intro c sp rest hq
    have hne := (not_congr List.take_eq_nil_iff).mp hq
    push_neg at hne
    have hcl : 0 < c.length := List.length_pos.mpr hne.2
    have hsp : 0 < sp := Nat.pos_of_ne_zero hne.1
    unfold pushback
    split
    · simp only [evWeight]; omega
    · simp only [evWeight, List.length_drop]; omega
  exact key _ _ _ h

/-- `Buffer::read_from` acting on a `Buffer` value. -/
def Buffer.readFrom (b : Buffer) (events : List ReadEv) :
    Except IoError (Bool × Buffer × List ReadEv) :=
  match readFromLoop b.growable b.content b.pos events with
  | .ok (more, content, pos, rest) => .ok (more, ⟨content, pos, b.growable⟩, rest)
  | .error e => .error e

/-! ## Router (src/router.rs)

A segment is a fixed string or a named variable; a route is a list of
segments plus its callback (callbacks are identified by a number, since
only identity of the returned callback matters).  `find_callback`
iterates the routes registered for the request's method in order,
walking pattern segments against the path segments that follow the
router's path prefix; route parameters accumulate in a map that is
cleared only on the fall-through failure path (the `params.clear()` at
the bottom of the `'top` loop). -/

inductive Segment where
  | fixed (s : String)
  | var (s : String)
deriving DecidableEq, Repr

structure Route where
  segments : List Segment
  callback : Nat
deriving DecidableEq, Repr

inductive Method where
  | options | get | post | put | delete | head | trace | connect | patch
deriving DecidableEq, Repr

/-- Lexicographic order on character lists by code point (the order of
Rust `String` keys in a `BTreeMap`, since UTF-8 preserves code-point order). -/
def charListLt : List Char → List Char → Bool
  | [], [] => false
  | [], _ :: _ => true
  | _ :: _, [] => false
  | a :: as, b :: bs =>
    if a.val.toNat < b.val.toNat then true
    else if b.val.toNat < a.val.toNat then false
    else charListLt as bs

def strLt (a b : String) : Bool := charListLt a.data b.data

/-- `BTreeMap::insert`: keep keys sorted, replace the value of an existing key. -/
def mapInsert (k v : String) : List (String × String) → List (String × String)
  | [] => [(k, v)]
  | (k', v') :: rest =>
    if strLt k k' then (k, v) :: (k', v') :: rest
    else if k = k' then (k, v) :: rest
    else (k', v') :: mapInsert k v rest

/-- `str::split('/')` on the character list of a string: maximal runs
between separators, with empty runs kept (split never yields no runs). -/
def splitOnChar (sep : Char) : List Char → List (List Char)
  | [] => [[]]
  | c :: rest =>
    if c = sep then [] :: splitOnChar sep rest
    else
      match splitOnChar sep rest with
      | g :: gs => (c :: g) :: gs
      | [] => [[c]]

/-- `get_segments` (router.rs lines 43-58): reject an empty pattern or one
without a leading slash, split the rest on slashes; a segment whose first
byte is a colon is a variable. -/
def getSegments (s : String) : Except String (List Segment) :=
  match s.data with
  | [] => .error "route must not be empty"
  | c :: stripped =>
    if c ≠ '/' then .error "route must begin with a slash"
    else
      .ok ((splitOnChar '/' stripped).map fun seg =>
        match seg with
        | ':' :: name => Segment.var (String.mk name)
        | _ => Segment.fixed (String.mk seg))

/-- The inner loop of `find_callback` (router.rs lines 214-223): walk the
path segments, advancing the pattern iterator.  Returns the remaining
pattern (`none` encodes `continue 'top` on a literal mismatch) together
with the parameter map as mutated so far — on `continue 'top` the
insertions made before the mismatch are kept, exactly as in the source. -/
def walkSegments : List Segment → List String → List (String × String) →
    Option (List Segment) × List (String × String)
  | pat, [], params => (some pat, params)
  | Segment.fixed f :: patRest, actual :: rest, params =>
      if f ≠ actual then (none, params)
      else walkSegments patRest rest params
  | Segment.var name :: patRest, actual :: rest, params =>
      walkSegments patRest rest (mapInsert name actual params)
  | [], _ :: rest, params => walkSegments [] rest params

/-- The `'top` loop of `find_callback` (router.rs lines 213-231): first route
whose pattern iterator is exhausted after the walk wins; its callback and the
current parameter map (attached to the request via `set_params`) are
returned.  `params.clear()` runs only when the walk completes with pattern
segments left over. -/
def findRoute : List Route → List String → List (String × String) →
    Option (Nat × List (String × String))
  | [], _, _ => none
  | r :: rest, pathSuffix, params =>
    match walkSegments r.segments pathSuffix params with
    | (none, params') => findRoute rest pathSuffix params'
    | (some [], params') => some (r.callback, params')
    | (some (_ :: _), _) => findRoute rest pathSuffix []

structure RouterAny where
  pfx : List Segment
  routes : List (Method × List Route)
deriving Repr

/-- `match_prefix` (router.rs lines 242-253). -/
def matchPfx (pfx : List Segment) (path : List String) : Bool :=
  if path.length ≥ pfx.length then
    (pfx.zip path).all fun sc =>
      match sc.1 with
      | Segment.fixed v => v = sc.2
      | _ => false
  else false

/-- `HashMap::get` on the per-method route table. -/
def lookupRoutes : List (Method × List Route) → Method → Option (List Route)
  | [], _ => none
  | (m, rs) :: rest, method => if m = method then some rs else lookupRoutes rest method

/-- `RouterAny::find_callback` (router.rs lines 201-239): check the router
prefix, look up the routes of the request's method, and scan them with an
initially empty parameter map.  The result carries the callback and the
parameter map stored into the request. -/
def findCallback (router : RouterAny) (method : Method) (path : List String) :
    Option (Nat × List (String × String)) :=
  if matchPfx router.pfx path then
    match lookupRoutes router.routes method with
    | some routes => findRoute routes (path.drop router.pfx.length) []
    | none => none
  else none

deriving instance DecidableEq for Except

/-! ## Framing validation: `check_request` (src/handler.rs lines 410-484)

The parts of the request that `check_request` consults: method, HTTP
version, and the two framing headers.  The `Content-Length` header is
modelled after hyper's typed access: `valid n` is a single parseable
value (`headers.get::<ContentLength>()` succeeds), `invalid` means the
header is present but `get` fails while `headers.has::<ContentLength>()`
is true, `absent` means no such header. -/

inductive HttpVersion where
  | http09 | http10 | http11 | http20
deriving DecidableEq, Repr

inductive Coding where
  | chunked | gzip | identity
deriving DecidableEq, Repr

inductive CLHeader where
  | absent
  | valid (n : Nat)
  | invalid
deriving DecidableEq, Repr

structure ReqHead where
  method : Method
  version : HttpVersion
  transferEncoding : Option (List Coding)
  contentLength : CLHeader
deriving DecidableEq, Repr

/-- The buffer `check_request` stores into the handler (`*buffer = ...`):
`none` when the field is left `None`, otherwise the kind of buffer. -/
inductive BufKind where
  | growable
  | fixed (capacity : Nat)
deriving DecidableEq, Repr

def isHttp1x (v : HttpVersion) : Bool :=
  v = HttpVersion.http09 ∨ v = HttpVersion.http10 ∨ v = HttpVersion.http11

/-- The method gate at the end of `check_request` (handler.rs lines 459-483),
run once the body-length computation fell through without an early return;
`len` is the computed expected length (`none` = indeterminate). -/
def methodGate (method : Method) (len : Option Nat) :
    Except String (Bool × Option BufKind) :=
  if method = Method.get ∨ method = Method.head ∨ method = Method.delete ∨
      method = Method.connect then
    .ok (false, none)
  else if method = Method.trace then
    .error "A client MUST NOT send a message body in a TRACE request."
  else
    .ok (true, some (match len with
      | none => BufKind.growable
      | some n => BufKind.fixed n))

/-- `check_request` (handler.rs lines 410-484): apply the RFC 7230 §3.3.3
length rules, then the per-method payload rules.  The returned pair is
`(Ok value, final buffer field)`. -/
def checkRequest (req : ReqHead) : Except String (Bool × Option BufKind) :=
  let http1x := isHttp1x req.version
  match req.transferEncoding with
  | some codings =>
      if codings.getLast? ≠ some Coding.chunked then
        .error "Last encoding of Transfer-Encoding must be chunked"
      else
        methodGate req.method none
  | none =>
    match req.contentLength with
    | CLHeader.valid len =>
        if len = 0 then .ok (false, none)
        else methodGate req.method (some len)
    | CLHeader.invalid => .error "Invalid Content-Length header"
    | CLHeader.absent =>
        if http1x then .ok (false, none)
        else methodGate req.method none

/-- What `on_request` (handler.rs lines 256-275) does with the result of
`check_request`: 400, immediate dispatch, or a body-reading phase. -/
inductive ReqAction where
  | badRequest (msg : String)
  | dispatch
  | readBody
deriving DecidableEq, Repr

def onRequestAction (req : ReqHead) : ReqAction :=
  match checkRequest req with
  | .error msg => .badRequest msg
  | .ok (false, _) => .dispatch
  | .ok (true, _) => .readBody

/-! ## Response emission: `on_response` (src/handler.rs lines 295-348) -/

/-- Response headers as far as `on_response` distinguishes them: the
`Content-Length` entry (removable) and everything else. -/
structure HeadersModel where
  contentLength : Option Nat
  rest : List (String × String)
deriving DecidableEq, Repr

def HeadersModel.removeContentLength (h : HeadersModel) : HeadersModel :=
  { h with contentLength := none }

/-- The application-side response a `Reply::Headers` carries: status code
(as its numeric value), headers, and whether streaming mode was selected
(`response::is_streaming`). -/
structure RespHead where
  status : Nat
  headers : HeadersModel
  streaming : Bool
deriving DecidableEq, Repr

inductive Reply where
  | headers (r : RespHead)
  | body (b : List Nat)
deriving DecidableEq, Repr

/-- hyper's `Next` as used by the handler. -/
inductive Next where
  | end_ | write | wait | read | remove
deriving DecidableEq, Repr

/-- `StatusCode::is_informational`: 1xx. -/
def isInformational (status : Nat) : Bool := 100 ≤ status ∧ status < 200

/-- The transport-side response being assembled (hyper `Response`). -/
structure HyperRes where
  status : Nat
  headers : HeadersModel
deriving DecidableEq, Repr

/-- `on_response` (handler.rs lines 295-348): steal replies in order.  A
headers reply records the streaming flag and sets status and headers on the
transport response; for 1xx, 204, 304, or a HEAD request the
`Content-Length` header is removed and the exchange ends at once.  A body
reply parks the body in the handler's buffer and asks to write.  An empty
queue ends (or waits, when streaming).  Returns the transport response, the
handler's buffer field, the streaming flag, and the returned `Next`. -/
def onResponse : List Reply → Bool → Bool → HyperRes →
    HyperRes × Option (List Nat) × Bool × Next
  | [], _, streaming, res =>
      (res, none, streaming, if streaming then Next.wait else Next.end_)
  | Reply.headers response :: rest, isHead, _, res =>
      let streaming := response.streaming
      let res' : HyperRes := { status := response.status, headers := response.headers }
      if isInformational response.status ∨ response.status = 204 ∨
          response.status = 304 ∨ isHead then
        ({ res' with headers := res'.headers.removeContentLength },
          none, streaming, Next.end_)
      else
        onResponse rest isHead streaming res'
  | Reply.body b :: _, _, streaming, res =>
      (res, some b, streaming, Next.write)

/-! ## Streaming response handle (src/response.rs)

`Resp` holds the chunk deque written by `append` and read by the handler,
plus the rendezvous flag; `notifies` counts the calls to
`ctrl.ready(Next::write())`. -/

structure RespState where
  queue : List (List Nat)
  notifies : Nat
  endedOrNotify : Bool
deriving DecidableEq, Repr

/-- A fresh `Resp` after `stream()` initialised the deque. -/
def RespState.fresh : RespState := ⟨[], 0, false⟩

/-- `Resp::notify` (response.rs lines 84-86). -/
def RespState.notify (r : RespState) : RespState :=
  { r with notifies := r.notifies + 1 }

/-- `Resp::append` (response.rs lines 116-119): push the chunk, then notify. -/
def RespState.append (r : RespState) (content : List Nat) : RespState :=
  RespState.notify { r with queue := r.queue ++ [content] }

/-- `Resp::done` (response.rs lines 72-80): the rendezvous flag swap. -/
def RespState.done (r : RespState) : RespState :=
  if r.endedOrNotify then RespState.notify r else { r with endedOrNotify := true }

/-- `Drop for Response<T>` (response.rs lines 209-219): a streaming handle
pushes the empty sentinel chunk via `append`, a fresh one runs `done`. -/
def responseDrop (streaming : Bool) (r : RespState) : RespState :=
  if streaming then RespState.append r [] else RespState.done r

/-! ## Request body accessors (src/request.rs lines 69-111) -/

/-- `Request::body` (request.rs lines 69-74). -/
def requestBody (body : Option Buffer) : Except IoError (List Nat) :=
  match body with
  | some buffer => .ok buffer.content
  | none => .error ⟨.unexpectedEof, "empty body"⟩

inductive MimeKind where
  | formUrlencoded | json | otherMime
deriving DecidableEq, Repr

/-- `Request::form` (request.rs lines 87-98): `try!(self.body())`, then the
Content-Type check.  The url-encoded parsing is an external collaborator;
on the success path the raw body bytes stand in for its output. -/
def requestForm (body : Option Buffer) (contentType : Option MimeKind) :
    Except IoError (List Nat) :=
  match requestBody body with
  | .error e => .error e
  | .ok bytes =>
    match contentType with
    | some MimeKind.formUrlencoded => .ok bytes
    | some _ => .error ⟨.invalidInput,
        "invalid Content-Type, expected application/x-www-form-urlencoded"⟩
    | none => .error ⟨.invalidInput, "missing Content-Type header"⟩

inductive JsonError where
  | io (e : IoError)
  | parse
deriving DecidableEq, Repr

/-- `Request::json` (request.rs lines 101-111): `try!(self.body())` converts
an I/O failure into `json::Error::Io`; the JSON parsing itself is an
external collaborator, stood in for by the raw bytes on success. -/
def requestJson (body : Option Buffer) (contentType : Option MimeKind) :
    Except JsonError (List Nat) :=
  match requestBody body with
  | .error e => .error (JsonError.io e)
  | .ok bytes =>
    match contentType with
    | some MimeKind.json => .ok bytes
    | some _ => .error (JsonError.io ⟨.invalidInput,
        "invalid Content-Type, expected application/json"⟩)
    | none => .error (JsonError.io ⟨.invalidInput, "missing Content-Type header"⟩)

/-! ## Concrete fixtures used by the claim theorems -/

/-- A router with the single GET route `"/a"`. -/
def routerSingleA : RouterAny :=
  ⟨[], [(Method.get, [⟨[Segment.fixed "a"], 0⟩])]⟩

/-- A router with GET routes `"/a/:x"` then `"/a/b"`, in registration order. -/
def routerFirstMatch : RouterAny :=
  ⟨[], [(Method.get,
    [⟨[Segment.fixed "a", Segment.var "x"], 10⟩,
     ⟨[Segment.fixed "a", Segment.fixed "b"], 20⟩])]⟩

/-- A router with GET routes `"/p/:a/c"` then `"/p/:b/d"`. -/
def routerLeak : RouterAny :=
  ⟨[], [(Method.get,
    [⟨[Segment.fixed "p", Segment.var "a", Segment.fixed "c"], 1⟩,
     ⟨[Segment.fixed "p", Segment.var "b", Segment.fixed "d"], 2⟩])]⟩

/-- A router with GET routes `"/:a/c/e"` then `"/:b/c"`: the first pattern is
longer than the matching two-segment path, so its attempt fails the final
iterator-exhaustion test and runs `params.clear()`. -/
def routerClear : RouterAny :=
  ⟨[], [(Method.get,
    [⟨[Segment.var "a", Segment.fixed "c", Segment.fixed "e"], 1⟩,
     ⟨[Segment.var "b", Segment.fixed "c"], 2⟩])]⟩

/-- A POST request carrying both `Transfer-Encoding: chunked` and
`Content-Length: 5`. -/
def reqTEandCL : ReqHead :=
  ⟨Method.post, HttpVersion.http11, some [Coding.chunked], CLHeader.valid 5⟩

/-! ## Helper lemmas about the router walk -/

/-- The remaining-pattern component of the walk does not depend on the
initial parameter map. -/
lemma walk_fst_indep : ∀ (path : List String) (pat : List Segment)
    (p q : List (String × String)),
    (walkSegments pat path p).1 = (walkSegments pat path q).1 := by
  intro path
  induction path with
  | nil => intro pat p q; simp [walkSegments]
  | cons a rest ih =>
    intro pat p q
    match pat with
    | [] => simp only [walkSegments]; exact ih [] p q
    | Segment.fixed f :: pr =>
      simp only [walkSegments]
      by_cases hf : f ≠ a
      · rw [if_pos hf, if_pos hf]
      · rw [if_neg hf, if_neg hf]; exact ih pr p q
    | Segment.var n :: pr =>
      simp only [walkSegments]; exact ih pr _ _

/-- A route's walk exhausts the pattern iterator iff the pattern has at
most as many segments as the path and every fixed segment agrees with the
path segment at its position. -/
lemma walk_match_iff : ∀ (path : List String) (pat : List Segment)
    (p : List (String × String)),
    ((walkSegments pat path p).1 = some []) ↔
      (pat.length ≤ path.length ∧
        ∀ (i : Nat) (f : String), pat[i]? = some (Segment.fixed f) → path[i]? = some f) := by
  intro path
  induction path with
  | nil =>
    intro pat p
    simp only [walkSegments, Option.some.injEq, List.length_nil, Nat.le_zero,
      List.length_eq_zero]
    constructor
    · rintro rfl
      exact ⟨rfl, by intro i f hif; simp at hif⟩
    · rintro ⟨rfl, _⟩; rfl
  | cons a rest ih =>
    intro pat p
    match pat with
    | [] =>
      simp only [walkSegments]
      rw [ih [] p]
      simp
    | Segment.fixed f :: pr =>
      simp only [walkSegments]
      by_cases hf : f ≠ a
      · rw [if_pos hf]
        constructor
        · intro h; exact absurd h (by simp)
        · rintro ⟨_, hfix⟩
          have h0 := hfix 0 f (by simp)
          simp at h0
          exact absurd h0.symm hf
      · push_neg at hf
        rw [if_neg (by simp [hf])]
        rw [ih pr p]
        constructor
        · rintro ⟨hlen, hfix⟩
          refine ⟨by simpa using Nat.succ_le_succ hlen, ?_⟩
          intro i g hig
          match i with
          | 0 => simp at hig ⊢; rw [← hf]; exact hig
          | i + 1 =>
            simp only [List.getElem?_cons_succ] at hig ⊢
            exact hfix i g hig
        · rintro ⟨hlen, hfix⟩
          refine ⟨by simpa using Nat.le_of_succ_le_succ (by simpa using hlen), ?_⟩
          intro i g hig
          have := hfix (i + 1) g (by simpa using hig)
          simpa using this
    | Segment.var n :: pr =>
      simp only [walkSegments]
      rw [ih pr _]
      constructor
      · rintro ⟨hlen, hfix⟩
        refine ⟨by simpa using Nat.succ_le_succ hlen, ?_⟩
        intro i g hig
        match i with
        | 0 => simp at hig
        | i + 1 =>
          simp only [List.getElem?_cons_succ] at hig ⊢
          exact hfix i g hig
      · rintro ⟨hlen, hfix⟩
        refine ⟨by simpa using Nat.le_of_succ_le_succ (by simpa using hlen), ?_⟩
        intro i g hig
        have := hfix (i + 1) g (by simpa using hig)
        simpa using this

/-- Whatever callback `findRoute` returns belongs to a route of the list
whose walk exhausted the pattern iterator. -/
lemma findRoute_some : ∀ (routes : List Route) (path : List String)
    (params : List (String × String)) (cb : Nat) (prms : List (String × String)),
    findRoute routes path params = some (cb, prms) →
    ∃ r, r ∈ routes ∧ r.callback = cb ∧
      (walkSegments r.segments path []).1 = some [] := by
  intro routes
  induction routes with
  | nil => intro path params cb prms h; simp [findRoute] at h
  | cons r rest ih =>
    intro path params cb prms h
    unfold findRoute at h
    rcases hww : walkSegments r.segments path params with ⟨fst, prm'⟩
    rw [hww] at h
    match fst with
    | none =>
      obtain ⟨r', hmem, hcb, hwalk⟩ := ih path prm' cb prms h
      exact ⟨r', List.mem_cons_of_mem r hmem, hcb, hwalk⟩
    | some [] =>
      simp only [Option.some.injEq, Prod.mk.injEq] at h
      refine ⟨r, List.mem_cons_self r rest, h.1, ?_⟩
      rw [walk_fst_indep path r.segments [] params, hww]
    | some (s :: ss) =>
      obtain ⟨r', hmem, hcb, hwalk⟩ := ih path [] cb prms h
      exact ⟨r', List.mem_cons_of_mem r hmem, hcb, hwalk⟩

/-! ## Claim theorems -/

/-- Claim C1 (amended): `find_callback` returns a route's callback only if
the route's pattern has AT MOST as many segments as the request path after
the router prefix and every fixed pattern segment equals the path segment at
its position; extra path segments beyond the pattern are ignored, so a path
with more segments than the pattern can still match. -/
theorem claim_C1 (router : RouterAny) (method : Method) (path : List String)
    (cb : Nat) (prms : List (String × String))
    (h : findCallback router method path = some (cb, prms)) :
    ∃ routes r, lookupRoutes router.routes method = some routes ∧ r ∈ routes ∧
      r.callback = cb ∧
      r.segments.length ≤ (path.drop router.pfx.length).length ∧
      (∀ (i : Nat) (f : String), r.segments[i]? = some (Segment.fixed f) →
        (path.drop router.pfx.length)[i]? = some f) := by
  unfold findCallback at h
  split at h
  · rcases hlk : lookupRoutes router.routes method with _ | routes
    · rw [hlk] at h; exact absurd h (by simp)
    · rw [hlk] at h
      obtain ⟨r, hmem, hcb, hwalk⟩ :=
        findRoute_some routes (path.drop router.pfx.length) [] cb prms h
      obtain ⟨hlen, hfix⟩ := (walk_match_iff _ _ _).mp hwalk
      exact ⟨routes, r, rfl, hmem, hcb, hlen, hfix⟩
  · exact absurd h (by simp)

/-- Witness for C1: the route `"/a"` is returned for the path
`["a", "b"]`, and the promised route properties hold there. -/
theorem claim_C1_witness :
    findCallback routerSingleA Method.get ["a", "b"] = some (0, []) ∧
    (∃ routes r, lookupRoutes routerSingleA.routes Method.get = some routes ∧
      r ∈ routes ∧ r.callback = 0 ∧
      r.segments.length ≤ ((["a", "b"] : List String).drop routerSingleA.pfx.length).length ∧
      (∀ (i : Nat) (f : String), r.segments[i]? = some (Segment.fixed f) →
        ((["a", "b"] : List String).drop routerSingleA.pfx.length)[i]? = some f)) :=
  ⟨by decide, claim_C1 routerSingleA Method.get ["a", "b"] 0 [] (by decide)⟩

/-- Counterexample for C1 as stated: the single route of `routerSingleA` is
the pattern `"/a"` with one segment, yet `find_callback` returns its
callback for the two-segment path `["a", "b"]` — a request path with more
segments than the pattern still matches. -/
theorem claim_C1_counterexample :
    getSegments "/a" = .ok [Segment.fixed "a"] ∧
    routerSingleA.routes = [(Method.get, [⟨[Segment.fixed "a"], 0⟩])] ∧
    ([Segment.fixed "a"] : List Segment).length = 1 ∧
    (["a", "b"] : List String).length = 2 ∧
    findCallback routerSingleA Method.get ["a", "b"] = some (0, []) := by
  decide

/-- Claim C9 (amended): with routes `"/a/:x"` and `"/a/b"` registered in that
order, a request for `/a/b` returns the first route's callback with `x`
bound to `"b"` (first registered match wins).  Parameters accumulated by a
route attempt that fails the final pattern-exhaustion test are cleared
before the next attempt (fourth conjunct: no leftover binding of `a`), but —
unlike the original claim — parameters bound before a literal-segment
mismatch are NOT discarded. -/
theorem claim_C9 :
    getSegments "/a/:x" = .ok [Segment.fixed "a", Segment.var "x"] ∧
    getSegments "/a/b" = .ok [Segment.fixed "a", Segment.fixed "b"] ∧
    findCallback routerFirstMatch Method.get ["a", "b"] = some (10, [("x", "b")]) ∧
    findCallback routerClear Method.get ["v", "c"] = some (2, [("b", "v")]) := by
  decide

/-- Counterexample for C9 as stated: with routes `"/p/:a/c"` and `"/p/:b/d"`,
the request `/p/v/d` fails the first route on the literal `c` AFTER binding
`a := "v"`; `continue 'top` skips `params.clear()`, so the stale binding
`("a", "v")` is attached to the request together with the second route's
`("b", "v")`. -/
theorem claim_C9_counterexample :
    getSegments "/p/:a/c" =
      .ok [Segment.fixed "p", Segment.var "a", Segment.fixed "c"] ∧
    getSegments "/p/:b/d" =
      .ok [Segment.fixed "p", Segment.var "b", Segment.fixed "d"] ∧
    findCallback routerLeak Method.get ["p", "v", "d"] =
      some (2, [("a", "v"), ("b", "v")]) := by
  decide

/-- Claim C2 (amended): when a request's `Transfer-Encoding` is present with
`chunked` as its last coding, `check_request` does NOT reject the request:
any `Content-Length` header is ignored and, for a payload-allowing method,
the request proceeds to a body-reading phase with a growable
(indeterminate-length) buffer.  A 400 framing rejection happens only when
the last coding is not `chunked`. -/
theorem claim_C2 (req : ReqHead) (codings : List Coding)
    (hte : req.transferEncoding = some codings)
    (hlast : codings.getLast? = some Coding.chunked)
    (hm : req.method ≠ Method.get ∧ req.method ≠ Method.head ∧
      req.method ≠ Method.delete ∧ req.method ≠ Method.connect ∧
      req.method ≠ Method.trace) :
    checkRequest req = .ok (true, some BufKind.growable) ∧
    onRequestAction req = .readBody := by
  have hcheck : checkRequest req = .ok (true, some BufKind.growable) := by
    simp only [checkRequest, hte]
    rw [if_neg (by simp [hlast])]
    simp only [methodGate]
    rw [if_neg (by push_neg; exact ⟨hm.1, hm.2.1, hm.2.2.1, hm.2.2.2.1⟩),
      if_neg hm.2.2.2.2]
  exact ⟨hcheck, by unfold onRequestAction; rw [hcheck]⟩

/-- Witness for C2: the fixture request (POST, HTTP/1.1,
`Transfer-Encoding: chunked`, `Content-Length: 5`) satisfies the hypotheses
and gets a growable body-reading phase. -/
theorem claim_C2_witness :
    (reqTEandCL.transferEncoding = some [Coding.chunked] ∧
      ([Coding.chunked] : List Coding).getLast? = some Coding.chunked ∧
      (reqTEandCL.method ≠ Method.get ∧ reqTEandCL.method ≠ Method.head ∧
        reqTEandCL.method ≠ Method.delete ∧ reqTEandCL.method ≠ Method.connect ∧
        reqTEandCL.method ≠ Method.trace)) ∧
    (checkRequest reqTEandCL = .ok (true, some BufKind.growable) ∧
      onRequestAction reqTEandCL = .readBody) :=
  ⟨by decide, claim_C2 reqTEandCL [Coding.chunked] (by decide) (by decide) (by decide)⟩

/-- Counterexample for C2 as stated: a POST with both
`Transfer-Encoding: chunked` and `Content-Length: 5` is NOT rejected with a
framing error — `check_request` returns `Ok(true)` with a growable buffer
and `on_request` proceeds to read a body. -/
theorem claim_C2_counterexample :
    checkRequest reqTEandCL = .ok (true, some BufKind.growable) ∧
    onRequestAction reqTEandCL = .readBody := by
  decide

/-- Claim C7 (confirmed): once the body-length computation indicated a body
(valid chunked `Transfer-Encoding`, or a positive valid `Content-Length`
without `Transfer-Encoding`), a GET/HEAD/DELETE/CONNECT request is treated
as having no body — `check_request` returns `Ok(false)` leaving the buffer
slot `None`, so `on_request` dispatches immediately — while a TRACE request
is rejected as a bad request. -/
theorem claim_C7 (req : ReqHead)
    (hbody : (∃ codings, req.transferEncoding = some codings ∧
        codings.getLast? = some Coding.chunked) ∨
      (req.transferEncoding = none ∧
        ∃ n, req.contentLength = CLHeader.valid n ∧ 0 < n)) :
    ((req.method = Method.get ∨ req.method = Method.head ∨
        req.method = Method.delete ∨ req.method = Method.connect) →
      checkRequest req = .ok (false, none) ∧ onRequestAction req = .dispatch) ∧
    (req.method = Method.trace →
      checkRequest req =
        .error "A client MUST NOT send a message body in a TRACE request." ∧
      onRequestAction req =
        .badRequest "A client MUST NOT send a message body in a TRACE request.") := by
  obtain ⟨len, hgate⟩ : ∃ len, checkRequest req = methodGate req.method len := by
    rcases hbody with ⟨codings, hte, hlast⟩ | ⟨hte, n, hcl, hn⟩
    · refine ⟨none, ?_⟩
      simp only [checkRequest, hte]
      rw [if_neg (by simp [hlast])]
    · refine ⟨some n, ?_⟩
      simp only [checkRequest, hte, hcl]
      rw [if_neg (Nat.pos_iff_ne_zero.mp hn)]
  constructor
  · intro hm4
    have hc : checkRequest req = .ok (false, none) := by
      rw [hgate]; simp only [methodGate]; rw [if_pos hm4]
    exact ⟨hc, by unfold onRequestAction; rw [hc]⟩
  · intro htr
    have hc : checkRequest req =
        .error "A client MUST NOT send a message body in a TRACE request." := by
      rw [hgate]; simp only [methodGate]
      rw [if_neg (by simp [htr]), if_pos htr]
    exact ⟨hc, by unfold onRequestAction; rw [hc]⟩

/-- Witness for C7: a GET with `Content-Length: 5` has its payload ignored
and is dispatched directly. -/
theorem claim_C7_witness :
    ((ReqHead.mk Method.get HttpVersion.http11 none (CLHeader.valid 5)).transferEncoding
        = none ∧
      (ReqHead.mk Method.get HttpVersion.http11 none (CLHeader.valid 5)).contentLength
        = CLHeader.valid 5 ∧ 0 < 5) ∧
    (checkRequest (ReqHead.mk Method.get HttpVersion.http11 none (CLHeader.valid 5))
        = .ok (false, none) ∧
      onRequestAction (ReqHead.mk Method.get HttpVersion.http11 none (CLHeader.valid 5))
        = .dispatch) :=
  ⟨by decide,
    (claim_C7 (ReqHead.mk Method.get HttpVersion.http11 none (CLHeader.valid 5))
      (Or.inr ⟨rfl, 5, rfl, by decide⟩)).1 (Or.inl rfl)⟩

/-- Claim C10 (confirmed): a request with `Content-Length: 0` (and no
`Transfer-Encoding`) is dispatched with no body buffer allocated, and for
any request without a body buffer, `Request::body()` returns an
`UnexpectedEof` error with message `"empty body"` rather than an empty
slice; `form()` and `json()` fail on such requests for every Content-Type. -/
theorem claim_C10 (req : ReqHead)
    (h1 : req.transferEncoding = none)
    (h2 : req.contentLength = CLHeader.valid 0) :
    checkRequest req = .ok (false, none) ∧
    onRequestAction req = .dispatch ∧
    requestBody none = .error ⟨ErrKind.unexpectedEof, "empty body"⟩ ∧
    (∀ ct, requestForm none ct = .error ⟨ErrKind.unexpectedEof, "empty body"⟩) ∧
    (∀ ct, requestJson none ct =
      .error (JsonError.io ⟨ErrKind.unexpectedEof, "empty body"⟩)) := by
  have hcheck : checkRequest req = .ok (false, none) := by
    simp [checkRequest, h1, h2]
  exact ⟨hcheck, by unfold onRequestAction; rw [hcheck], rfl,
    fun ct => rfl, fun ct => rfl⟩

/-- Witness for C10 at the concrete request (POST, HTTP/1.1, no
`Transfer-Encoding`, `Content-Length: 0`). -/
theorem claim_C10_witness :
    ((ReqHead.mk Method.post HttpVersion.http11 none (CLHeader.valid 0)).transferEncoding
        = none ∧
      (ReqHead.mk Method.post HttpVersion.http11 none (CLHeader.valid 0)).contentLength
        = CLHeader.valid 0) ∧
    (checkRequest (ReqHead.mk Method.post HttpVersion.http11 none (CLHeader.valid 0))
        = .ok (false, none) ∧
      onRequestAction (ReqHead.mk Method.post HttpVersion.http11 none (CLHeader.valid 0))
        = .dispatch ∧
      requestBody none = .error ⟨ErrKind.unexpectedEof, "empty body"⟩ ∧
      (∀ ct, requestForm none ct = .error ⟨ErrKind.unexpectedEof, "empty body"⟩) ∧
      (∀ ct, requestJson none ct =
        .error (JsonError.io ⟨ErrKind.unexpectedEof, "empty body"⟩))) :=
  ⟨by decide,
    claim_C10 (ReqHead.mk Method.post HttpVersion.http11 none (CLHeader.valid 0))
      rfl rfl⟩

/-- Claim C6 (confirmed): when `on_response` receives the application's
headers reply and the status is 1xx, 204 or 304, or the request was a HEAD
request, it removes the `Content-Length` header from the transport response
and returns `Next::end()` immediately: no body reply is consumed, the
handler buffer stays empty, and no body bytes can be written — regardless
of the body replies or `Content-Length` the application queued. -/
theorem claim_C6 (response : RespHead) (rest : List Reply) (isHead s0 : Bool)
    (res0 : HyperRes)
    (h : isInformational response.status = true ∨ response.status = 204 ∨
      response.status = 304 ∨ isHead = true) :
    onResponse (Reply.headers response :: rest) isHead s0 res0 =
      (⟨response.status, response.headers.removeContentLength⟩,
        none, response.streaming, Next.end_) := by
  unfold onResponse
  rw [if_pos h]

/-- Witness for C6: a 204 response with a `Content-Length: 5` header and a
queued body reply still ends right after the stripped headers. -/
theorem claim_C6_witness :
    (isInformational 204 = true ∨ (204 : Nat) = 204 ∨ (204 : Nat) = 304 ∨
      false = true) ∧
    onResponse (Reply.headers ⟨204, ⟨some 5, []⟩, false⟩ :: [Reply.body [1, 2]])
        false true ⟨200, ⟨none, []⟩⟩ =
      (⟨204, HeadersModel.removeContentLength ⟨some 5, []⟩⟩,
        none, false, Next.end_) :=
  ⟨by decide,
    claim_C6 ⟨204, ⟨some 5, []⟩, false⟩ [Reply.body [1, 2]] false true
      ⟨200, ⟨none, []⟩⟩ (by decide)⟩

/-- Folding `Resp::append` over a chunk list appends the chunks in order and
notifies once per chunk. -/
lemma foldl_append_spec : ∀ (chunks : List (List Nat)) (r : RespState),
    (chunks.foldl RespState.append r).queue = r.queue ++ chunks ∧
    (chunks.foldl RespState.append r).notifies = r.notifies + chunks.length := by
  intro chunks
  induction chunks with
  | nil => intro r; simp
  | cons c cs ih =>
    intro r
    simp only [List.foldl_cons]
    obtain ⟨h1, h2⟩ := ih (RespState.append r c)
    constructor
    · rw [h1]; simp [RespState.append, RespState.notify]
    · rw [h2]; simp [RespState.append, RespState.notify]; omega

/-- Claim C8 (confirmed): appending chunks `c1, …, cn` on a streaming
response handle and then dropping it leaves the chunk queue holding exactly
`c1, …, cn` in append order followed by a single empty sentinel chunk, and
each `append` as well as the final drop notifies the reactor control
exactly once (n + 1 notifications in total, one more per operation). -/
theorem claim_C8 (chunks : List (List Nat)) :
    (responseDrop true (chunks.foldl RespState.append RespState.fresh)).queue
      = chunks ++ [[]] ∧
    (responseDrop true (chunks.foldl RespState.append RespState.fresh)).notifies
      = chunks.length + 1 ∧
    (∀ (r : RespState) (c : List Nat),
      (RespState.append r c).queue = r.queue ++ [c] ∧
      (RespState.append r c).notifies = r.notifies + 1) ∧
    (∀ r : RespState, (responseDrop true r).queue = r.queue ++ [[]] ∧
      (responseDrop true r).notifies = r.notifies + 1) := by
  obtain ⟨h1, h2⟩ := foldl_append_spec chunks RespState.fresh
  have hq : (chunks.foldl RespState.append RespState.fresh).queue = chunks := by
    rw [h1]; simp [RespState.fresh]
  have hn : (chunks.foldl RespState.append RespState.fresh).notifies = chunks.length := by
    rw [h2]; simp [RespState.fresh]
  refine ⟨?_, ?_, ?_, ?_⟩
  · simp [responseDrop, RespState.append, RespState.notify, hq]
  · simp [responseDrop, RespState.append, RespState.notify, hn]
  · intro r c; simp [RespState.append, RespState.notify]
  · intro r; simp [responseDrop, RespState.append, RespState.notify]

/-- Iterating the growth rule from an empty buffer: after the `k+1`-st
exhaustion the capacity is `4096 * 2^k`. -/
lemma growLen_iter : ∀ k : Nat, growLen^[k + 1] 0 = 4096 * 2 ^ k := by
  intro k
  induction k with
  | zero => decide
  | succ k ih =>
    rw [Function.iterate_succ_apply', ih, growLen, DEFAULT_BUF_SIZE]
    have h2 : (0 : Nat) < 2 ^ k := Nat.pos_pow_of_pos k (by norm_num)
    rw [if_neg (by push_neg; calc 4 * 1024 = 4096 * 1 := by norm_num
          _ ≤ 4096 * 2 ^ k := Nat.mul_le_mul_left 4096 h2)]
    ring

/-- Claim C5 (amended): whenever a growable buffer is full at the top of the
`read_from` loop, its capacity is grown before reading further (observable
through the would-block return, which hands back the grown storage): it
becomes the default chunk size 4096 on the first exhaustion of a buffer
that started empty and doubles on each subsequent exhaustion — but, unlike
the original claim, the doubling has NO growth ceiling. -/
theorem claim_C5 :
    (∀ len, len < DEFAULT_BUF_SIZE → growLen len = 4096) ∧
    (∀ len, DEFAULT_BUF_SIZE ≤ len → growLen len = len * 2) ∧
    (∀ k : Nat, growLen^[k + 1] 0 = 4096 * 2 ^ k) ∧
    (∀ (content : List Nat) (e : IoError) (rest : List ReadEv),
      e.kind = ErrKind.wouldBlock →
      readFromLoop true content content.length (ReadEv.fail e :: rest) =
        .ok (true, resize content (growLen content.length), content.length, rest)) ∧
    (∀ (content : List Nat) (pos : Nat) (e : IoError) (rest : List ReadEv),
      e.kind = ErrKind.wouldBlock → pos ≠ content.length →
      readFromLoop true content pos (ReadEv.fail e :: rest) =
        .ok (true, content, pos, rest)) := by
  refine ⟨?_, ?_, growLen_iter, ?_, ?_⟩
  · intro len h; rw [growLen, if_pos h]; decide
  · intro len h; rw [growLen, if_neg (Nat.not_lt.mpr h)]
  · intro content e rest he
    rw [readFromLoop]
    simp [he]
  · intro content pos e rest he hp
    rw [readFromLoop]
    simp [he, hp]

/-! ## Helper lemmas about the buffer -/

/-- Witness for C5: an empty growable buffer that is full (position 0 =
capacity 0) grows before the would-block return hands back the storage. -/
theorem claim_C5_witness :
    ((IoError.mk ErrKind.wouldBlock "would block").kind = ErrKind.wouldBlock) ∧
    readFromLoop true [] 0 [ReadEv.fail ⟨ErrKind.wouldBlock, "would block"⟩] =
      .ok (true, resize [] (growLen 0), 0, []) :=
  ⟨rfl, claim_C5.2.2.2.1 [] ⟨ErrKind.wouldBlock, "would block"⟩ [] rfl⟩

/-- Counterexample for C5 as stated: the doubling has no growth ceiling —
the capacities reached by successive exhaustions of a growable buffer are
unbounded, so no cap bounds them all. -/
theorem claim_C5_counterexample :
    ¬ ∃ cap : Nat, ∀ k : Nat, growLen^[k] 0 ≤ cap := by
  rintro ⟨cap, hcap⟩
  have h1 := hcap (cap + 1)
  rw [growLen_iter cap] at h1
  have h2 : cap < 2 ^ cap := Nat.lt_two_pow cap
  have h3 : 2 ^ cap ≤ 4096 * 2 ^ cap := Nat.le_mul_of_pos_left _ (by norm_num)
  omega

lemma flattenData_length : ∀ evs : List ReadEv, (flattenData evs).length = evWeight evs := by
  intro evs
  induction evs with
  | nil => rfl
  | cons e rest ih =>
    cases e with
    | data c => simp [flattenData, evWeight, ih]
    | fail e => simp [flattenData, evWeight, ih]

lemma resize_length : ∀ (content : List Nat) (n : Nat), (resize content n).length = n := by
  intro content n
  unfold resize
  split
  · rw [List.length_take]; omega
  · rw [List.length_append, List.length_replicate]; omega

lemma resize_take_of_le (content : List Nat) (n pos : Nat)
    (hpos : pos ≤ content.length) (hn : content.length ≤ n) :
    (resize content n).take pos = content.take pos := by
  unfold resize
  split
  · rw [List.take_take]; congr 1; omega
  · rw [List.take_append_of_le_length hpos]

lemma growLen_gt : ∀ len : Nat, len < growLen len := by
  intro len
  have hD : DEFAULT_BUF_SIZE = 4096 := rfl
  unfold growLen
  split <;> omega

lemma writeAt_length (content : List Nat) (pos : Nat) (d : List Nat)
    (h : pos + d.length ≤ content.length) :
    (writeAt content pos d).length = content.length := by
  unfold writeAt
  rw [List.length_append, List.length_append, List.length_take, List.length_drop]
  omega

lemma writeAt_take_add (content : List Nat) (pos : Nat) (d : List Nat)
    (h : pos ≤ content.length) :
    (writeAt content pos d).take (pos + d.length) = content.take pos ++ d := by
  have hassoc : writeAt content pos d =
      (content.take pos ++ d) ++ content.drop (pos + d.length) := by
    unfold writeAt
    rw [List.append_assoc]
  rw [hassoc]
  exact List.take_left' (by rw [List.length_append, List.length_take]; omega)

lemma evWeight_pushback (c : List Nat) (space : Nat) (rest : List ReadEv) :
    evWeight (pushback c space rest) = (c.length - space) + evWeight rest := by
  unfold pushback
  split
  · rename_i hEmp
    rw [List.isEmpty_iff] at hEmp
    have := congrArg List.length hEmp
    rw [List.length_drop] at this
    simp at this ⊢
    omega
  · simp [evWeight, List.length_drop]

lemma flattenData_pushback (c : List Nat) (space : Nat) (rest : List ReadEv) :
    flattenData (pushback c space rest) = c.drop space ++ flattenData rest := by
  unfold pushback
  split
  · rename_i hEmp
    rw [List.isEmpty_iff] at hEmp
    rw [hEmp]
    simp
  · simp [flattenData]

lemma hev_pushback (c : List Nat) (space : Nat) (rest : List ReadEv)
    (hev : ∀ e ∈ (ReadEv.data c :: rest), isDataNonempty e = true) :
    ∀ e ∈ pushback c space rest, isDataNonempty e = true := by
  intro e he
  unfold pushback at he
  split at he
  · exact hev e (List.mem_cons_of_mem _ he)
  · rename_i hEmp
    rcases List.mem_cons.mp he with rfl | hmem
    · simp [isDataNonempty, hEmp]
    · exact hev e (List.mem_cons_of_mem _ hmem)

/-- A growable buffer consumes the whole reader: the loop returns complete
with the bytes written so far followed by every supplied byte, the position
advanced by the total supplied, and the reader exhausted. -/
lemma readFromLoop_growable : ∀ (W : Nat) (events : List ReadEv), evWeight events = W →
    (∀ e ∈ events, isDataNonempty e = true) →
    ∀ (content : List Nat) (pos : Nat), pos ≤ content.length →
    readFromLoop true content pos events =
      .ok (false, content.take pos ++ flattenData events, pos + evWeight events, []) := by
  intro W
  induction W using Nat.strong_induction_on with
  | _ W ih =>
    intro events hW hev content pos hpos
    have hc1 : ∀ c1, (if (true && pos == content.length) = true
          then resize content (growLen content.length) else content) = c1 →
        pos < c1.length ∧ c1.take pos = content.take pos := by
      intro c1 hdef
      by_cases hfull : pos = content.length
      · rw [if_pos (by simp [hfull])] at hdef
        subst hdef
        refine ⟨?_, resize_take_of_le content _ pos hpos (le_of_lt (growLen_gt _))⟩
        rw [resize_length, hfull]
        exact growLen_gt content.length
      · rw [if_neg (by simp [hfull])] at hdef
        subst hdef
        exact ⟨lt_of_le_of_ne hpos hfull, rfl⟩
    cases events with
    | nil =>
      rw [readFromLoop]
      obtain ⟨hlt, htake⟩ := hc1 _ rfl
      simp only [eofResult, if_pos rfl, evWeight, flattenData]
      rw [htake]
      simp
    | cons e rest =>
      cases e with
      | fail err =>
        have := hev (ReadEv.fail err) (List.mem_cons_self _ _)
        simp [isDataNonempty] at this
      | data c =>
        have hcne : c ≠ [] := by
          have := hev (ReadEv.data c) (List.mem_cons_self _ _)
          simpa [isDataNonempty, List.isEmpty_iff] using this
        rw [readFromLoop]
        set c1 := (if (true && pos == content.length) = true
          then resize content (growLen content.length) else content) with hc1def
        obtain ⟨hlt, htake⟩ := hc1 c1 hc1def.symm
        have hspace : 0 < c1.length - pos := by omega
        have hdel : c.take (c1.length - pos) ≠ [] := by
          rw [Ne, List.take_eq_nil_iff]
          push_neg
          exact ⟨by omega, hcne⟩
        rw [dif_neg hdel]
        rw [if_neg (by simp)]
        have hdlen : (c.take (c1.length - pos)).length = min (c1.length - pos) c.length := by
          rw [List.length_take]
        have hple : pos + (c.take (c1.length - pos)).length ≤ c1.length := by
          rw [hdlen]; omega
        have hwless : evWeight (pushback c (c1.length - pos) rest) < W := by
          rw [evWeight_pushback]
          have hcpos : 0 < c.length := List.length_pos.mpr hcne
          have : 0 < (c.take (c1.length - pos)).length := List.length_pos.mpr hdel

          rw [← hW]
          simp only [evWeight]
          omega
        rw [ih _ hwless (pushback c (c1.length - pos) rest) rfl
          (hev_pushback c (c1.length - pos) rest hev)
          (writeAt c1 pos (c.take (c1.length - pos)))
          (pos + (c.take (c1.length - pos)).length)
          (by rw [writeAt_length c1 pos _ hple]; exact hple)]
        have hA : (writeAt c1 pos (c.take (c1.length - pos))).take
              (pos + (c.take (c1.length - pos)).length) ++
            flattenData (pushback c (c1.length - pos) rest) =
            content.take pos ++ flattenData (ReadEv.data c :: rest) := by
          rw [writeAt_take_add c1 pos (c.take (c1.length - pos)) (le_of_lt hlt), htake,
            flattenData_pushback]
          simp only [flattenData]
          rw [List.append_assoc, ← List.append_assoc (c.take (c1.length - pos))
            (c.drop (c1.length - pos)) (flattenData rest), List.take_append_drop]
        have hB : pos + (c.take (c1.length - pos)).length +
            evWeight (pushback c (c1.length - pos) rest) =
            pos + evWeight (ReadEv.data c :: rest) := by
          rw [evWeight_pushback, hdlen]
          simp only [evWeight]
          have hcpos : 0 < c.length := List.length_pos.mpr hcne
          omega
        rw [hA, hB]

/-- A fixed buffer supplied at least its remaining capacity: the loop
completes with exactly the capacity filled, the remainder of the reader
left unconsumed. -/
lemma readFromLoop_fixed_enough : ∀ (W : Nat) (events : List ReadEv), evWeight events = W →
    (∀ e ∈ events, isDataNonempty e = true) →
    ∀ (content : List Nat) (pos : Nat), pos ≤ content.length →
    content.length - pos ≤ evWeight events →
    ∃ rest', readFromLoop false content pos events =
      .ok (false, content.take pos ++ (flattenData events).take (content.length - pos),
        content.length, rest') := by
  intro W
  induction W using Nat.strong_induction_on with
  | _ W ih =>
    intro events hW hev content pos hpos henough
    cases events with
    | nil =>
      refine ⟨[], ?_⟩
      rw [readFromLoop]
      have hfull : pos = content.length := by
        simp only [evWeight] at henough
        omega
      rw [if_neg (show ¬((false && pos == content.length) = true) by simp)]
      simp only [eofResult, if_neg (by simp : ¬(false = true)), hfull]
      simp [List.take_length]
    | cons e rest =>
      cases e with
      | fail err =>
        have := hev (ReadEv.fail err) (List.mem_cons_self _ _)
        simp [isDataNonempty] at this
      | data c =>
        have hcne : c ≠ [] := by
          have := hev (ReadEv.data c) (List.mem_cons_self _ _)
          simpa [isDataNonempty, List.isEmpty_iff] using this
        rw [readFromLoop]
        rw [if_neg (show ¬((false && pos == content.length) = true) by simp)]
        by_cases hfull : pos = content.length
        · -- no space: the read returns 0 bytes and the buffer is already full
          have hdel : c.take (content.length - pos) = [] := by
            rw [List.take_eq_nil_iff]
            left; omega
          rw [dif_pos hdel]
          refine ⟨pushback c (content.length - pos) rest, ?_⟩
          simp only [eofResult, if_neg (by simp : ¬(false = true)), hfull]
          simp [List.take_length]
        · have hposlt : pos < content.length := lt_of_le_of_ne hpos hfull
          have hspace : 0 < content.length - pos := by omega
          have hdel : c.take (content.length - pos) ≠ [] := by
            rw [Ne, List.take_eq_nil_iff]
            push_neg
            exact ⟨by omega, hcne⟩
          rw [dif_neg hdel]
          have hdlen : (c.take (content.length - pos)).length
              = min (content.length - pos) c.length := List.length_take _ _
          have hple : pos + (c.take (content.length - pos)).length ≤ content.length := by
            rw [hdlen]; omega
          have hlen' : (writeAt content pos (c.take (content.length - pos))).length
              = content.length := writeAt_length content pos _ hple
          by_cases hdone : pos + (c.take (content.length - pos)).length = content.length
          · rw [if_pos ⟨rfl, by rw [hlen']; exact hdone⟩]
            refine ⟨pushback c (content.length - pos) rest, ?_⟩
            have hcfull : content.length - pos ≤ c.length := by
              rw [hdlen] at hdone; omega
            have htk : (c.take (content.length - pos)) =
                (flattenData (ReadEv.data c :: rest)).take (content.length - pos) := by
              simp only [flattenData]
              rw [List.take_append_of_le_length hcfull]
            have hwfull : writeAt content pos (c.take (content.length - pos)) =
                content.take pos ++ c.take (content.length - pos) := by
              unfold writeAt
              rw [hdone, List.drop_length]
              simp
            rw [hwfull, hdone, ← htk]
          · rw [if_neg (by rintro ⟨_, h2⟩; rw [hlen'] at h2; exact hdone h2)]
            -- the whole chunk fit with room to spare: delivered = c
            have hcsmall : c.length < content.length - pos := by
              rcases Nat.lt_or_ge c.length (content.length - pos) with h | h
              · exact h
              · exfalso; apply hdone; rw [hdlen]; omega
            have hdelc : c.take (content.length - pos) = c :=
              List.take_of_length_le (by omega)
            have hpush : pushback c (content.length - pos) rest = rest := by
              unfold pushback
              rw [if_pos (by rw [List.isEmpty_iff]; exact List.drop_eq_nil_of_le (by omega))]
            rw [hdelc, hpush]
            have hwless : evWeight rest < W := by
              rw [← hW]
              simp only [evWeight]
              have : 0 < c.length := List.length_pos.mpr hcne
              omega
            have hrec := ih _ hwless rest rfl
              (fun e he => hev e (List.mem_cons_of_mem _ he))
              (writeAt content pos c) (pos + c.length)
              (by rw [writeAt_length content pos c (by omega)]; omega)
              (by
                rw [writeAt_length content pos c (by omega)]
                simp only [evWeight] at henough
                omega)
            obtain ⟨rest', hr⟩ := hrec
            refine ⟨rest', ?_⟩
            rw [hr]
            rw [writeAt_length content pos c (by omega)]
            congr 2
            rw [writeAt_take_add content pos c hpos]
            simp only [flattenData]
            rw [List.append_assoc]
            congr 1
            have harith : content.length - pos = c.length + (content.length - (pos + c.length)) := by
              omega
            rw [harith, List.take_append]

/-- A fixed buffer supplied fewer bytes than its remaining capacity: the
loop fails with the incomplete-message `UnexpectedEof` error. -/
lemma readFromLoop_fixed_short : ∀ (W : Nat) (events : List ReadEv), evWeight events = W →
    (∀ e ∈ events, isDataNonempty e = true) →
    ∀ (content : List Nat) (pos : Nat), pos ≤ content.length →
    evWeight events < content.length - pos →
    readFromLoop false content pos events =
      .error ⟨ErrKind.unexpectedEof, incompleteMsg content.length (pos + evWeight events)⟩ := by
  intro W
  induction W using Nat.strong_induction_on with
  | _ W ih =>
    intro events hW hev content pos hpos hshort
    cases events with
    | nil =>
      rw [readFromLoop]
      rw [if_neg (show ¬((false && pos == content.length) = true) by simp)]
      have hne : pos ≠ content.length := by
        simp only [evWeight] at hshort
        omega
      simp only [eofResult, if_neg (by simp : ¬(false = true)), if_pos hne, evWeight]
      simp
    | cons e rest =>
      cases e with
      | fail err =>
        have := hev (ReadEv.fail err) (List.mem_cons_self _ _)
        simp [isDataNonempty] at this
      | data c =>
        have hcne : c ≠ [] := by
          have := hev (ReadEv.data c) (List.mem_cons_self _ _)
          simpa [isDataNonempty, List.isEmpty_iff] using this
        have hcpos : 0 < c.length := List.length_pos.mpr hcne
        have hcsmall : c.length < content.length - pos := by
          simp only [evWeight] at hshort
          omega
        rw [readFromLoop]
        rw [if_neg (show ¬((false && pos == content.length) = true) by simp)]
        have hdelc : c.take (content.length - pos) = c :=
          List.take_of_length_le (by omega)
        have hdel : c.take (content.length - pos) ≠ [] := by
          rw [hdelc]; exact hcne
        rw [dif_neg hdel]
        have hlen' : (writeAt content pos (c.take (content.length - pos))).length
            = content.length := by
          rw [hdelc]
          exact writeAt_length content pos c (by omega)
        rw [if_neg (by
          rintro ⟨_, h2⟩
          rw [hlen', hdelc] at h2
          omega)]
        have hpush : pushback c (content.length - pos) rest = rest := by
          unfold pushback
          rw [if_pos (by rw [List.isEmpty_iff]; exact List.drop_eq_nil_of_le (by omega))]
        rw [hdelc, hpush]
        have hwless : evWeight rest < W := by
          rw [← hW]
          simp only [evWeight]
          omega
        have hrec := ih _ hwless rest rfl
          (fun e he => hev e (List.mem_cons_of_mem _ he))
          (writeAt content pos c) (pos + c.length)
          (by rw [writeAt_length content pos c (by omega)]; omega)
          (by
            rw [writeAt_length content pos c (by omega)]
            simp only [evWeight] at hshort
            omega)
        rw [hrec]
        rw [writeAt_length content pos c (by omega)]
        have harith : pos + c.length + evWeight rest
            = pos + evWeight (ReadEv.data c :: rest) := by
          simp only [evWeight]; omega
        rw [harith]

/-- Claim C4 (confirmed): reading into a growable buffer with any sequence
of positive-size chunks followed by end-of-stream succeeds (`Ok(false)`),
and leaves the buffer content exactly equal to the concatenation of all
supplied bytes, with storage truncated to exactly that length (no trailing
zero padding, second conjunct) and the reader fully consumed. -/
theorem claim_C4 (events : List ReadEv)
    (hev : ∀ e ∈ events, isDataNonempty e = true) :
    Buffer.new.readFrom events =
      .ok (false, ⟨flattenData events, evWeight events, true⟩, []) ∧
    (flattenData events).length = evWeight events := by
  refine ⟨?_, flattenData_length events⟩
  have h := readFromLoop_growable (evWeight events) events rfl hev [] 0 (by simp)
  simp only [List.take_nil, List.nil_append, Nat.zero_add] at h
  simp only [Buffer.readFrom, Buffer.new]
  rw [h]

/-- Witness for C4: the chunking `[1,2]`, `[3]` leaves exactly `[1,2,3]` in
the buffer. -/
theorem claim_C4_witness :
    (∀ e ∈ [ReadEv.data [1, 2], ReadEv.data [3]], isDataNonempty e = true) ∧
    (Buffer.new.readFrom [ReadEv.data [1, 2], ReadEv.data [3]] =
      .ok (false, ⟨flattenData [ReadEv.data [1, 2], ReadEv.data [3]],
        evWeight [ReadEv.data [1, 2], ReadEv.data [3]], true⟩, []) ∧
    (flattenData [ReadEv.data [1, 2], ReadEv.data [3]]).length
        = evWeight [ReadEv.data [1, 2], ReadEv.data [3]]) :=
  ⟨by decide, claim_C4 [ReadEv.data [1, 2], ReadEv.data [3]] (by decide)⟩

/-- Claim C3 (confirmed): for a fixed buffer of capacity `C` and any
chunking of the reader's input into positive-size chunks, `read_from`
returns the complete result exactly when `C` total bytes have been
supplied — it completes (filled with the first `C` supplied bytes) iff the
reader holds at least `C` bytes, and if the reader reaches end-of-stream
first it returns an `UnexpectedEof` incomplete-message error instead of
succeeding. -/
theorem claim_C3 (C : Nat) (events : List ReadEv)
    (hev : ∀ e ∈ events, isDataNonempty e = true) :
    (C ≤ evWeight events →
      ∃ rest, (Buffer.newFixed C).readFrom events =
        .ok (false, ⟨(flattenData events).take C, C, false⟩, rest)) ∧
    (evWeight events < C →
      (Buffer.newFixed C).readFrom events =
        .error ⟨ErrKind.unexpectedEof, incompleteMsg C (evWeight events)⟩) := by
  constructor
  · intro hC
    obtain ⟨rest', hr⟩ := readFromLoop_fixed_enough (evWeight events) events rfl hev
      (List.replicate C 0) 0 (by simp) (by simpa using hC)
    refine ⟨rest', ?_⟩
    simp only [List.take_zero, List.nil_append, List.length_replicate, Nat.sub_zero] at hr
    simp only [Buffer.readFrom, Buffer.newFixed]
    rw [hr]
  · intro hC
    have h := readFromLoop_fixed_short (evWeight events) events rfl hev
      (List.replicate C 0) 0 (by simp) (by simpa using hC)
    simp only [List.length_replicate, Nat.zero_add] at h
    simp only [Buffer.readFrom, Buffer.newFixed]
    rw [h]

/-- Witness for C3: capacity 3 supplied with chunks `[1,2]`, `[3]` (exactly
3 bytes) completes. -/
theorem claim_C3_witness :
    (∀ e ∈ [ReadEv.data [1, 2], ReadEv.data [3]], isDataNonempty e = true) ∧
    3 ≤ evWeight [ReadEv.data [1, 2], ReadEv.data [3]] ∧
    (∃ rest, (Buffer.newFixed 3).readFrom [ReadEv.data [1, 2], ReadEv.data [3]] =
      .ok (false, ⟨(flattenData [ReadEv.data [1, 2], ReadEv.data [3]]).take 3,
        3, false⟩, rest)) :=
  ⟨by decide, by decide,
    (claim_C3 3 [ReadEv.data [1, 2], ReadEv.data [3]] (by decide)).1 (by decide)⟩

end EdgeRs
